import Mathlib

/-!
# Verification of `scripts/merge_dict.py`

A shallow embedding of the i18n-Dict-Merged merge script.  The script
downloads an upstream SQLite dictionary, merges per-mod translation pairs
into it (`merge_mod_entries`), regenerates the full (`Dict.json`) and
compact (`Dict-Mini.json`) artifacts (`regenerate_release_files`), writes
a per-run diff log (`diff.json`), and renders a Markdown changelog
(`generate_release_body`).

Modelling decisions:
* A parsed JSON object (`en_us.json` / `zh_cn.json`) is an association
  list `List (String × JVal)`; `JVal` distinguishes string values from
  any non-string JSON value (the script only tests `isinstance(v, str)`).
* The SQLite table `dict` is a list of rows in natural enumeration
  (rowid) order; `AUTOINCREMENT` ids are `maxId + 1, maxId + 2, ...`.
* `common_keys = en_data.keys() & zh_data.keys()` is a Python *set*; its
  iteration order is not specified, so the merge loop takes the
  enumeration `ks` as an explicit argument, constrained by `validKs`
  (duplicate-free, containing exactly the shared keys).
* `Counter(trans_list).most_common()` is: count values in first-encounter
  order (a `Counter` is an insertion-ordered dict), then stable-sort by
  descending count (`sorted` with `reverse=True` is stable).  It is
  embedded as `counterList` followed by the stable descending insertion
  sort `sortDesc`.
* I/O outcomes (HTTP status, transport errors) are explicit parameters;
  a Python exception that propagates is an `Except.error`.
-/

namespace MergeDict

/-- A parsed JSON value as far as the script inspects it:
either a string or anything else (`isinstance(v, str)` is false). -/
inductive JVal where
  | str (s : String)
  | nonstr
deriving DecidableEq

/-- One row of the SQLite `dict` table. -/
structure DictRow where
  id : Nat
  origin_name : String
  trans_name : String
  modid : String
  key : String
  version : String
  curseforge : String
deriving DecidableEq

/-- The `dict` table, rows in natural enumeration (rowid) order. -/
abbrev Store := List DictRow

/-- One unit of merge work: the identifying fields of `mod_info`. -/
structure Scope where
  modid : String
  version : String
  curseforge : String
deriving DecidableEq

/-- The six-field record used both for `diff_entries` elements and for the
`to_insert` tuples `(origin, trans, modid, key, version, curseforge)`. -/
structure DiffEntry where
  origin_name : String
  trans_name : String
  modid : String
  key : String
  version : String
  curseforge : String
deriving DecidableEq

/-- Result of the merge loop of `merge_mod_entries`:
`to_insert`, `to_update`, `diff_entries`, `skipped`. -/
structure MergeOut where
  to_insert : List DiffEntry
  to_update : List ((String × String) × Nat)
  diff : List DiffEntry
  skipped : Nat
deriving DecidableEq

/-- `m[k]` on a parsed JSON object (Python dict: at most one entry per key). -/
def lookupJ (m : List (String × JVal)) (k : String) : Option JVal :=
  m.lookup k

/-- The keys of a parsed JSON object. -/
def keysOf (m : List (String × JVal)) : List String :=
  m.map Prod.fst

/-- `en_data[key]`, `zh_data[key]` when both are plain strings
(`isinstance(origin, str) and isinstance(trans, str)`), else `none`. -/
def pairVals (en zh : List (String × JVal)) (k : String) : Option (String × String) :=
  match lookupJ en k, lookupJ zh k with
  | some (.str o), some (.str t) => some (o, t)
  | _, _ => none

/-- The `WHERE MODID=? AND VERSION=? AND CURSEFORGE=?` clause. -/
def matchesScope (sc : Scope) (r : DictRow) : Bool :=
  r.modid == sc.modid && r.version == sc.version && r.curseforge == sc.curseforge

/-- `SELECT KEY, ID FROM dict WHERE ...` : the `(KEY, ID)` pairs of the
scope's rows, in enumeration order. -/
def existing_pairs (store : Store) (sc : Scope) : List (String × Nat) :=
  (store.filter (matchesScope sc)).map fun r => (r.key, r.id)

/-- `existing_map.get(key)`: the dict comprehension
`{row[0]: row[1] for row in ...}` keeps the last pair for a repeated key,
hence the lookup on the reversed pair list. -/
def existingId (store : Store) (sc : Scope) (k : String) : Option Nat :=
  ((existing_pairs store sc).reverse).lookup k

/-- The `for key in common_keys:` loop body of `merge_mod_entries`,
over an explicit enumeration `ks` of the key-set intersection.
`if existing_id:` is Python truthiness: `None` and `0` both fall through
to the insert branch. -/
def mergeLoop (en zh : List (String × JVal)) (sc : Scope)
    (emap : String → Option Nat) : List String → MergeOut
  | [] => ⟨[], [], [], 0⟩
  | k :: ks =>
    let rest := mergeLoop en zh sc emap ks
    match pairVals en zh k with
    | none => { rest with skipped := rest.skipped + 1 }
    | some (o, t) =>
      let d : DiffEntry := ⟨o, t, sc.modid, k, sc.version, sc.curseforge⟩
      match emap k with
      | some eid =>
        if eid ≠ 0 then
          { rest with to_update := ((o, t), eid) :: rest.to_update,
                      diff := d :: rest.diff }
        else
          { rest with to_insert := d :: rest.to_insert, diff := d :: rest.diff }
      | none =>
        { rest with to_insert := d :: rest.to_insert, diff := d :: rest.diff }

/-- `merge_mod_entries` with the store queried for the scope's
`Key → Id` map before the loop. -/
def merge_mod_entries (store : Store) (sc : Scope)
    (en zh : List (String × JVal)) (ks : List String) : MergeOut :=
  mergeLoop en zh sc (existingId store sc) ks

/-- `ks` is a valid enumeration of the Python set
`en_data.keys() & zh_data.keys()`: duplicate-free and containing exactly
the shared keys (in some container-dependent order). -/
def validKs (en zh : List (String × JVal)) (ks : List String) : Prop :=
  ks.Nodup ∧ (∀ k ∈ ks, k ∈ keysOf en ∧ k ∈ keysOf zh) ∧
    (∀ k ∈ keysOf en, k ∈ keysOf zh → k ∈ ks)

instance (en zh : List (String × JVal)) (ks : List String) :
    Decidable (validKs en zh ks) := by
  unfold validKs; infer_instance

/-- `UPDATE dict SET ORIGIN_NAME=?, TRANS_NAME=? WHERE ID=?`, applied by
`executemany` in list order. -/
def applyUpdates (store : Store) (ups : List ((String × String) × Nat)) : Store :=
  ups.foldl
    (fun st p =>
      st.map fun r =>
        if r.id = p.2 then { r with origin_name := p.1.1, trans_name := p.1.2 } else r)
    store

/-- The largest id in the store (`AUTOINCREMENT` sequence; 0 when empty). -/
def maxId (store : Store) : Nat :=
  store.foldr (fun r m => max r.id m) 0

/-- Rows created by `INSERT ... VALUES (?, ?, ?, ?, ?, ?)` with
consecutive `AUTOINCREMENT` ids starting at `nextId`. -/
def insertRows (nextId : Nat) : List DiffEntry → List DictRow
  | [] => []
  | e :: es =>
    ⟨nextId, e.origin_name, e.trans_name, e.modid, e.key, e.version, e.curseforge⟩ ::
      insertRows (nextId + 1) es

/-- `executemany INSERT`: new rows are appended at the end of the table. -/
def applyInserts (store : Store) (ins : List DiffEntry) : Store :=
  store ++ insertRows (maxId store + 1) ins

/-- The staged store after `merge_mod_entries` for one scope:
batched updates first, then batched inserts (source order). -/
def applyMerge (store : Store) (sc : Scope)
    (en zh : List (String × JVal)) (ks : List String) : Store :=
  let out := merge_mod_entries store sc en zh ks
  applyInserts (applyUpdates store out.to_update) out.to_insert

/-- A shared key whose two values are both plain strings (the pairs that
are accepted rather than skipped). -/
def strPair (en zh : List (String × JVal)) (k : String) : Bool :=
  (pairVals en zh k).isSome

/-! ## Artifact regeneration (`regenerate_release_files`) -/

/-- The shared artifact filter: an entry is dropped when
`len(origin_name) > 50 or origin_name == ""`. -/
def keepEntry (r : DictRow) : Bool :=
  !(decide (50 < r.origin_name.length) || r.origin_name == "")

/-- `integral`: the `Dict.json` entry list — every kept row, in the
store's enumeration order. -/
def integral (rows : Store) : List DictRow :=
  rows.filter keepEntry

/-- The `(origin, trans)` pairs appended into `integral_mini_temp`,
in scan order: kept rows with `origin_name != trans_name`. -/
def miniPairs (rows : Store) : List (String × String) :=
  (rows.filter keepEntry).filterMap fun r =>
    if r.origin_name ≠ r.trans_name then some (r.origin_name, r.trans_name) else none

/-- `integral_mini_temp[o]`: the translations appended for origin `o`,
in the store's enumeration order. -/
def groupVals (rows : Store) (o : String) : List String :=
  (miniPairs rows).filterMap fun p => if p.1 = o then some p.2 else none

/-- First-encounter deduplication with the set of already-seen values as
an accumulator: keeps the first occurrence of each value, in encounter
order (a Python dict's key insertion order). -/
def firstEncAux (seen : List String) : List String → List String
  | [] => []
  | x :: xs =>
    if x ∈ seen then firstEncAux seen xs else x :: firstEncAux (x :: seen) xs

/-- First-encounter deduplication: keeps the first occurrence of each
value, in encounter order (a Python dict's key insertion order). -/
def firstEnc (l : List String) : List String :=
  firstEncAux [] l

/-- The keys of `integral_mini_temp` (a `defaultdict`), in first-insertion
order. -/
def miniKeys (rows : Store) : List String :=
  firstEnc ((miniPairs rows).map Prod.fst)

/-- `Counter(l)` as an insertion-ordered dict: the distinct values of `l`
in first-encounter order, each with its multiplicity. -/
def counterList (l : List String) : List (String × Nat) :=
  (firstEnc l).map fun v => (v, l.count v)

/-- Stable insertion of one counted value into a list sorted by
descending count: `x` goes before the first element whose count is
`≤ x`'s, so earlier elements win ties. -/
def insertDesc (x : String × Nat) : List (String × Nat) → List (String × Nat)
  | [] => [x]
  | y :: ys => if y.2 ≤ x.2 then x :: y :: ys else y :: insertDesc x ys

/-- Stable insertion sort by descending count (the behaviour of Python's
stable `sorted(..., reverse=True)` used by `Counter.most_common`). -/
def sortDesc : List (String × Nat) → List (String × Nat)
  | [] => []
  | x :: xs => insertDesc x (sortDesc xs)

/-- `Counter(trans_list).most_common()`. -/
def mostCommon (l : List String) : List (String × Nat) :=
  sortDesc (counterList l)

/-- `[item for item, _ in Counter(trans_list).most_common()]`. -/
def rankList (l : List String) : List String :=
  (mostCommon l).map Prod.fst

/-- `integral_mini_final`: the `Dict-Mini.json` mapping, keys in the
`defaultdict`'s insertion order. -/
def integral_mini_final (rows : Store) : List (String × List String) :=
  (miniKeys rows).map fun o => (o, rankList (groupVals rows o))

/-- `Dict.json` content: `json.dumps(integral, ...)` is `"[]"` exactly
when `integral` is empty, and the file is skipped in that case. -/
def regen_dict (rows : Store) : Option (List DictRow) :=
  if integral rows = [] then none else some (integral rows)

/-- `Dict-Mini.json` content: `json.dumps(integral_mini_final, ...)` is
`"{}"` exactly when the mapping is empty, and the file is skipped then. -/
def regen_mini (rows : Store) : Option (List (String × List String)) :=
  if integral_mini_final rows = [] then none else some (integral_mini_final rows)

/-! ## Changelog (`generate_release_body`) -/

/-- One per-scope summary record appended in `main`'s loop. -/
structure Summary where
  modid : String
  version : String
  inserted : Nat
  updated : Nat
  skipped : Nat
  error : Option String
deriving DecidableEq

/-- The `status` cell: `"✅ 成功" if not s.get("error") else f"❌ 失败: ..."`.
(A non-`None` error string in `main` is always non-empty, so Python
truthiness of `s.get("error")` coincides with `error ≠ none`.) -/
def statusOf (s : Summary) : String :=
  match s.error with
  | none => "✅ 成功"
  | some e => "❌ 失败: `" ++ e ++ "`"

/-- One table row of the changelog. -/
def rowOf (s : Summary) : String :=
  "| `" ++ s.modid ++ "` | `" ++ s.version ++ "` | " ++ toString s.inserted ++
    " | " ++ toString s.updated ++ " | " ++ toString s.skipped ++ " | " ++
    statusOf s ++ " |"

/-- The lines of `generate_release_body` before the final `"\n".join`. -/
def generate_release_body_lines (summaries : List Summary) (diff_count : Nat) :
    List String :=
  let header : List String :=
    ["## 合并词典更新",
     "本次合并共计处理了 **" ++ toString diff_count ++ "** 个用户贡献的翻译条目。",
     "",
     "### 数据来源与变更摘要",
     ""]
  if summaries = [] then
    header ++ ["本次运行未合并任何翻译数据。"]
  else
    header ++
      ["| 模组 (modid) | 版本 | 新增条目 | 更新条目 | 跳过条目 | 状态 |",
       "|---|---|---:|---:|---:|:---|"] ++
      summaries.map rowOf ++
      ["", "`diff.json` 文件包含了本次合并所有新增和更新的条目详情。"]

/-- `generate_release_body`. -/
def generate_release_body (summaries : List Summary) (diff_count : Nat) : String :=
  String.intercalate "\n" (generate_release_body_lines summaries diff_count)

/-! ## The scope loop of `main` -/

/-- One scanned `mod_info` together with the outcome of reading and
parsing its two JSON files: `ok` carries the parsed mappings and the
enumeration of the key-set intersection, `fail` the exception text raised
inside the `try` block (before any store mutation — `json.load` runs
before the first database access in `merge_mod_entries`). -/
inductive ScopeInput where
  | ok (sc : Scope) (en zh : List (String × JVal)) (ks : List String)
  | fail (sc : Scope) (err : String)
deriving DecidableEq

/-- One iteration of `main`'s merge loop: the staged store, the summary
appended to `summaries`, and the entries extended onto `all_diff_entries`. -/
def processScope (store : Store) : ScopeInput → Store × Summary × List DiffEntry
  | .ok sc en zh ks =>
    let out := merge_mod_entries store sc en zh ks
    (applyMerge store sc en zh ks,
     ⟨sc.modid, sc.version, out.to_insert.length, out.to_update.length,
      out.skipped, none⟩,
     out.diff)
  | .fail sc e => (store, ⟨sc.modid, sc.version, 0, 0, 0, some e⟩, [])

/-- `main`'s loop over all scanned scopes, in scan order; the returned
store is the one committed once after the last scope. -/
def processScopes (store : Store) : List ScopeInput → Store × List Summary × List DiffEntry
  | [] => (store, [], [])
  | s :: ss =>
    let r1 := processScope store s
    let r2 := processScopes r1.1 ss
    (r2.1, r1.2.1 :: r2.2.1, r1.2.2 ++ r2.2.2)

/-- `total_diff = sum(s["inserted"] + s["updated"] for s in summaries)`. -/
def totalDiff (summaries : List Summary) : Nat :=
  (summaries.map fun s => s.inserted + s.updated).sum

/-- The four generated files of one run; `none` means the file was not
written. -/
structure RunOutput where
  dictJson : Option (List DictRow)
  miniJson : Option (List (String × List String))
  diffJson : Option (List DiffEntry)
  releaseBody : Option String
deriving DecidableEq

/-- `main` from the point where `mod_entries` is known: with zero scopes
it returns before producing any file; otherwise it commits the staged
store, regenerates both artifacts, always writes `diff.json`, and always
writes `release_body.md`. -/
def runOutputs (store : Store) (scopes : List ScopeInput) : RunOutput :=
  if scopes = [] then ⟨none, none, none, none⟩
  else
    let r := processScopes store scopes
    ⟨regen_dict r.1, regen_mini r.1, some r.2.2,
     some (generate_release_body r.2.1 (totalDiff r.2.1))⟩

/-! ## Upstream snapshot fetch (`get_upstream_release_info`,
`download_upstream_db`, and the top of `main`) -/

/-- A GitHub release asset as far as the script uses it. -/
structure DbAsset where
  name : String
  url : String
deriving DecidableEq

/-- Outcome of the `requests.get` on the latest-release endpoint. -/
inductive RelInfo where
  /-- `requests.get` itself raised (network/transport failure). -/
  | transportErr (e : String)
  /-- Response arrived with `status_code != 200`. -/
  | badStatus (code : Nat)
  /-- 200 response whose assets hold no `Dict-Sqlite.db` entry. -/
  | okNoAsset (tag : String)
  /-- 200 response with the `Dict-Sqlite.db` asset. -/
  | okAsset (tag : String) (asset : DbAsset)
deriving DecidableEq

/-- `get_upstream_release_info()`: a non-200 status only prints a warning
and returns `(None, None)`; an exception from `requests.get` propagates. -/
def get_upstream_release_info : RelInfo → Except String (Option String × Option DbAsset)
  | .transportErr e => .error e
  | .badStatus _ => .ok (none, none)
  | .okNoAsset tag => .ok (some tag, none)
  | .okAsset tag a => .ok (some tag, some a)

/-- `download_upstream_db(db_asset, ...)`: with no asset it returns
`False` (create a new database); with an asset, `fetch` is the outcome of
the streamed download — `raise_for_status()` or a transport error raises,
and nothing in `main` catches it. -/
def download_upstream_db (db_asset : Option DbAsset) (fetch : Except String Unit) :
    Except String Bool :=
  match db_asset with
  | none => .ok false
  | some _ =>
    match fetch with
    | .ok _ => .ok true
    | .error e => .error e

/-- The top of `main`: fetch release info, download the snapshot, and open
the store the run will use — the downloaded `snapshot` on success, an
empty (freshly initialized) store when no snapshot was available, and an
uncaught exception (run aborted) otherwise. -/
def mainPrelude (rel : RelInfo) (fetch : Except String Unit) (snapshot : Store) :
    Except String Store :=
  match get_upstream_release_info rel with
  | .error e => .error e
  | .ok (_, asset) =>
    match download_upstream_db asset fetch with
    | .error e => .error e
    | .ok true => .ok snapshot
    | .ok false => .ok []

/-! ## Derived characterizations of the merge loop

Per-key views of what one iteration of the `for key in common_keys:` loop
contributes to each accumulator. -/

/-- The diff entry contributed by key `k` (accepted pairs only). -/
def diffFn (en zh : List (String × JVal)) (sc : Scope) (k : String) :
    Option DiffEntry :=
  (pairVals en zh k).map fun p => ⟨p.1, p.2, sc.modid, k, sc.version, sc.curseforge⟩

/-- The insert tuple contributed by key `k`: accepted and not found in the
`Key → Id` map (`None` or a falsy id `0`). -/
def insFn (en zh : List (String × JVal)) (sc : Scope)
    (emap : String → Option Nat) (k : String) : Option DiffEntry :=
  match pairVals en zh k with
  | none => none
  | some p =>
    match emap k with
    | some eid =>
      if eid ≠ 0 then none
      else some ⟨p.1, p.2, sc.modid, k, sc.version, sc.curseforge⟩
    | none => some ⟨p.1, p.2, sc.modid, k, sc.version, sc.curseforge⟩

/-- The update tuple contributed by key `k`: accepted and found with a
truthy id. -/
def updFn (en zh : List (String × JVal)) (emap : String → Option Nat)
    (k : String) : Option ((String × String) × Nat) :=
  match pairVals en zh k with
  | none => none
  | some p =>
    match emap k with
    | some eid => if eid ≠ 0 then some (p, eid) else none
    | none => none

end MergeDict

namespace MergeDict

/-! ## Lemmas about the merge loop -/

theorem mergeLoop_to_insert (en zh : List (String × JVal)) (sc : Scope)
    (emap : String → Option Nat) (ks : List String) :
    (mergeLoop en zh sc emap ks).to_insert = ks.filterMap (insFn en zh sc emap) := by
  induction ks with
  | nil => rfl
  | cons k ks ih =>
    simp only [mergeLoop, List.filterMap_cons]
    cases h : pairVals en zh k with
    | none => simp [insFn, h, ih]
    | some p =>
      obtain ⟨o, t⟩ := p
      cases hm : emap k with
      | none => simp [insFn, h, hm, ih]
      | some eid =>
        by_cases he : eid = 0
        · simp [insFn, h, hm, he, ih]
        · simp [insFn, h, hm, he, ih]

theorem mergeLoop_to_update (en zh : List (String × JVal)) (sc : Scope)
    (emap : String → Option Nat) (ks : List String) :
    (mergeLoop en zh sc emap ks).to_update = ks.filterMap (updFn en zh emap) := by
  induction ks with
  | nil => rfl
  | cons k ks ih =>
    simp only [mergeLoop, List.filterMap_cons]
    cases h : pairVals en zh k with
    | none => simp [updFn, h, ih]
    | some p =>
      obtain ⟨o, t⟩ := p
      cases hm : emap k with
      | none => simp [updFn, h, hm, ih]
      | some eid =>
        by_cases he : eid = 0
        · simp [updFn, h, hm, he, ih]
        · simp [updFn, h, hm, he, ih]

theorem mergeLoop_diff (en zh : List (String × JVal)) (sc : Scope)
    (emap : String → Option Nat) (ks : List String) :
    (mergeLoop en zh sc emap ks).diff = ks.filterMap (diffFn en zh sc) := by
  induction ks with
  | nil => rfl
  | cons k ks ih =>
    simp only [mergeLoop, List.filterMap_cons]
    cases h : pairVals en zh k with
    | none => simp [diffFn, h, ih]
    | some p =>
      obtain ⟨o, t⟩ := p
      cases hm : emap k with
      | none => simp [diffFn, h, hm, ih]
      | some eid =>
        by_cases he : eid = 0
        · simp [diffFn, h, hm, he, ih]
        · simp [diffFn, h, hm, he, ih]

theorem mergeLoop_skipped (en zh : List (String × JVal)) (sc : Scope)
    (emap : String → Option Nat) (ks : List String) :
    (mergeLoop en zh sc emap ks).skipped
      = ks.countP (fun k => (pairVals en zh k).isNone) := by
  induction ks with
  | nil => rfl
  | cons k ks ih =>
    simp only [mergeLoop, List.countP_cons]
    cases h : pairVals en zh k with
    | none => simp [h, ih]
    | some p =>
      obtain ⟨o, t⟩ := p
      cases hm : emap k with
      | none => simp [h, hm, ih]
      | some eid =>
        by_cases he : eid = 0
        · simp [h, hm, he, ih]
        · simp [h, hm, he, ih]

theorem mergeLoop_counts_sum (en zh : List (String × JVal)) (sc : Scope)
    (emap : String → Option Nat) (ks : List String) :
    (mergeLoop en zh sc emap ks).to_insert.length
        + (mergeLoop en zh sc emap ks).to_update.length
        + (mergeLoop en zh sc emap ks).skipped = ks.length := by
  induction ks with
  | nil => rfl
  | cons k ks ih =>
    simp only [mergeLoop, List.length_cons]
    cases h : pairVals en zh k with
    | none => simp only [h]; omega
    | some p =>
      obtain ⟨o, t⟩ := p
      cases hm : emap k with
      | none => simp only [hm, List.length_cons]; omega
      | some eid =>
        by_cases he : eid = 0
        · simp only [he, ne_eq, not_true_eq_false, if_false, List.length_cons]; omega
        · simp only [ne_eq, he, not_false_eq_true, if_true, List.length_cons]; omega

theorem validKs_toFinset {en zh : List (String × JVal)} {ks : List String}
    (h : validKs en zh ks) :
    ks.toFinset = (keysOf en).toFinset ∩ (keysOf zh).toFinset := by
  ext a
  simp only [List.mem_toFinset, Finset.mem_inter]
  constructor
  · exact fun ha => h.2.1 a ha
  · exact fun ha => h.2.2 a ha.1 ha.2

theorem validKs_length {en zh : List (String × JVal)} {ks : List String}
    (h : validKs en zh ks) :
    ks.length = ((keysOf en).toFinset ∩ (keysOf zh).toFinset).card := by
  rw [← validKs_toFinset h, List.toFinset_card_of_nodup h.1]

theorem diffFn_key {en zh : List (String × JVal)} {sc : Scope} {k : String}
    {d : DiffEntry} (h : diffFn en zh sc k = some d) : d.key = k := by
  unfold diffFn at h
  cases hp : pairVals en zh k with
  | none => rw [hp] at h; cases h
  | some p =>
    rw [hp] at h
    obtain rfl : _ = d := Option.some.inj h
    rfl

theorem insFn_key {en zh : List (String × JVal)} {sc : Scope}
    {emap : String → Option Nat} {k : String} {e : DiffEntry}
    (h : insFn en zh sc emap k = some e) : e.key = k := by
  unfold insFn at h
  cases hp : pairVals en zh k with
  | none => rw [hp] at h; cases h
  | some p =>
    rw [hp] at h
    cases hm : emap k with
    | none =>
      rw [hm] at h
      obtain rfl : _ = e := Option.some.inj h
      rfl
    | some eid =>
      rw [hm] at h
      dsimp only at h
      by_cases hz : eid = 0
      · rw [show (if eid ≠ 0 then (none : Option DiffEntry)
            else some ⟨p.1, p.2, sc.modid, k, sc.version, sc.curseforge⟩)
            = some ⟨p.1, p.2, sc.modid, k, sc.version, sc.curseforge⟩
            from if_neg (by simp [hz])] at h
        obtain rfl : _ = e := Option.some.inj h
        rfl
      · rw [show (if eid ≠ 0 then (none : Option DiffEntry)
            else some ⟨p.1, p.2, sc.modid, k, sc.version, sc.curseforge⟩)
            = none from if_pos hz] at h
        cases h

theorem updFn_spec {en zh : List (String × JVal)}
    {emap : String → Option Nat} {k : String} {u : (String × String) × Nat}
    (h : updFn en zh emap k = some u) : emap k = some u.2 ∧ u.2 ≠ 0 := by
  unfold updFn at h
  cases hp : pairVals en zh k with
  | none => rw [hp] at h; cases h
  | some p =>
    rw [hp] at h
    cases hm : emap k with
    | none => rw [hm] at h; cases h
    | some eid =>
      rw [hm] at h
      dsimp only at h
      by_cases hz : eid = 0
      · rw [show (if eid ≠ 0 then some (p, eid) else none) = none
            from if_neg (by simp [hz])] at h
        cases h
      · rw [show (if eid ≠ 0 then some (p, eid) else none) = some (p, eid)
            from if_pos hz] at h
        obtain rfl : (p, eid) = u := Option.some.inj h
        exact ⟨rfl, hz⟩

/-- **C1.** For a scope whose two mappings parse, the three counts
partition the key-set intersection
(`insertedCount + updatedCount + skippedCount = |keys(en) ∩ keys(zh)|`),
and keys present in only one mapping contribute no insert, no update and
no diff entry: every diff entry and every insert tuple carries a shared
key, and every update tuple's id was looked up at a shared key. -/
theorem counts_partition_key_intersection (store : Store) (sc : Scope)
    (en zh : List (String × JVal)) (ks : List String) (h : validKs en zh ks) :
    ((merge_mod_entries store sc en zh ks).to_insert.length
        + (merge_mod_entries store sc en zh ks).to_update.length
        + (merge_mod_entries store sc en zh ks).skipped
      = ((keysOf en).toFinset ∩ (keysOf zh).toFinset).card)
    ∧ (∀ d ∈ (merge_mod_entries store sc en zh ks).diff,
        d.key ∈ keysOf en ∧ d.key ∈ keysOf zh)
    ∧ (∀ e ∈ (merge_mod_entries store sc en zh ks).to_insert,
        e.key ∈ keysOf en ∧ e.key ∈ keysOf zh)
    ∧ (∀ u ∈ (merge_mod_entries store sc en zh ks).to_update,
        ∃ k, k ∈ keysOf en ∧ k ∈ keysOf zh ∧ existingId store sc k = some u.2) := by
  refine ⟨?_, ?_, ?_, ?_⟩
  · rw [← validKs_length h]
    exact mergeLoop_counts_sum en zh sc (existingId store sc) ks
  · intro d hd
    rw [merge_mod_entries, mergeLoop_diff, List.mem_filterMap] at hd
    obtain ⟨k, hk, hfd⟩ := hd
    rw [diffFn_key hfd]
    exact h.2.1 k hk
  · intro e he
    rw [merge_mod_entries, mergeLoop_to_insert, List.mem_filterMap] at he
    obtain ⟨k, hk, hfe⟩ := he
    rw [insFn_key hfe]
    exact h.2.1 k hk
  · intro u hu
    rw [merge_mod_entries, mergeLoop_to_update, List.mem_filterMap] at hu
    obtain ⟨k, hk, hfu⟩ := hu
    exact ⟨k, (h.2.1 k hk).1, (h.2.1 k hk).2, (updFn_spec hfu).1⟩

/-- Witness for C1 at a concrete scope: `en = {a: "x", b: 7}`,
`zh = {a: "y", b: "z", c: "w"}`, shared keys `{a, b}`; the counts sum to
`2` (one insert, one skip). -/
theorem counts_partition_key_intersection_witness :
    (merge_mod_entries [] ⟨"m", "v", "c"⟩
          [("a", .str "x"), ("b", .nonstr)]
          [("a", .str "y"), ("b", .str "z"), ("c", .str "w")]
          ["a", "b"]).to_insert.length
        + (merge_mod_entries [] ⟨"m", "v", "c"⟩
          [("a", .str "x"), ("b", .nonstr)]
          [("a", .str "y"), ("b", .str "z"), ("c", .str "w")]
          ["a", "b"]).to_update.length
        + (merge_mod_entries [] ⟨"m", "v", "c"⟩
          [("a", .str "x"), ("b", .nonstr)]
          [("a", .str "y"), ("b", .str "z"), ("c", .str "w")]
          ["a", "b"]).skipped
      = (((keysOf [("a", .str "x"), ("b", .nonstr)]).toFinset
          ∩ (keysOf [("a", .str "y"), ("b", .str "z"), ("c", .str "w")]).toFinset)).card :=
  (counts_partition_key_intersection [] ⟨"m", "v", "c"⟩
    [("a", .str "x"), ("b", .nonstr)]
    [("a", .str "y"), ("b", .str "z"), ("c", .str "w")]
    ["a", "b"] (by decide)).1

end MergeDict

namespace MergeDict

/-! ## Scope-failure isolation and run outputs -/

/-- **C6.** A scope whose input reading fails contributes exactly a
zero-count summary carrying the error, no diff entries and no store
change; the scopes after it are processed against the same staged store,
and the single final (committed) store is the one covering all
successfully staged work. -/
theorem scope_failure_isolated (store : Store) (pre post : List ScopeInput)
    (sc : Scope) (e : String) :
    processScopes store (pre ++ ScopeInput.fail sc e :: post)
      = ((processScopes (processScopes store pre).1 post).1,
         (processScopes store pre).2.1
           ++ ⟨sc.modid, sc.version, 0, 0, 0, some e⟩
             :: (processScopes (processScopes store pre).1 post).2.1,
         (processScopes store pre).2.2
           ++ (processScopes (processScopes store pre).1 post).2.2) := by
  induction pre generalizing store with
  | nil => simp [processScopes, processScope]
  | cons s ss ih =>
    simp only [List.cons_append, processScopes, List.append_eq]
    rw [ih]
    simp

/-- **C10.** With zero discovered scopes the run returns right after
schema initialization: none of the four files is produced — not even the
"nothing merged" changelog that `generate_release_body` would have
emitted on an empty summary list. -/
theorem no_scopes_no_outputs (store : Store) (dc : Nat) :
    runOutputs store [] = ⟨none, none, none, none⟩
    ∧ generate_release_body_lines [] dc
      = ["## 合并词典更新",
         "本次合并共计处理了 **" ++ toString dc ++ "** 个用户贡献的翻译条目。",
         "",
         "### 数据来源与变更摘要",
         "",
         "本次运行未合并任何翻译数据。"] := by
  exact ⟨by simp [runOutputs], by simp [generate_release_body_lines]⟩

/-- **C9.** Whenever at least one scope was discovered, `diff.json` is
written unconditionally (it holds the accumulated diff list, even when
that list is empty), while `Dict.json` and `Dict-Mini.json` are written
exactly when their contents are nonempty; `release_body.md` is also
always written. -/
theorem diff_log_written_unconditionally (store : Store) (scopes : List ScopeInput)
    (h : scopes ≠ []) :
    (runOutputs store scopes).diffJson = some (processScopes store scopes).2.2
    ∧ ((runOutputs store scopes).dictJson = none
        ↔ integral (processScopes store scopes).1 = [])
    ∧ ((runOutputs store scopes).miniJson = none
        ↔ integral_mini_final (processScopes store scopes).1 = [])
    ∧ (runOutputs store scopes).releaseBody
        = some (generate_release_body (processScopes store scopes).2.1
            (totalDiff (processScopes store scopes).2.1)) := by
  refine ⟨?_, ?_, ?_, ?_⟩
  · simp [runOutputs, if_neg h]
  · simp only [runOutputs, if_neg h, regen_dict]
    split <;> simp_all
  · simp only [runOutputs, if_neg h, regen_mini]
    split <;> simp_all
  · simp [runOutputs, if_neg h]

/-- Witness for C9: a run whose only scope failed still writes
`diff.json` containing the empty list, while neither artifact is
written. -/
theorem diff_log_written_unconditionally_witness :
    (runOutputs [] [ScopeInput.fail ⟨"m", "v", "c"⟩ "boom"]).diffJson = some []
    ∧ (runOutputs [] [ScopeInput.fail ⟨"m", "v", "c"⟩ "boom"]).dictJson = none := by
  have h1 := (diff_log_written_unconditionally [] [ScopeInput.fail ⟨"m", "v", "c"⟩ "boom"]
    (by decide)).1
  have h2 := (diff_log_written_unconditionally [] [ScopeInput.fail ⟨"m", "v", "c"⟩ "boom"]
    (by decide)).2.1
  refine ⟨?_, h2.mpr (by decide)⟩
  rw [h1]
  decide

/-! ## Snapshot fetch behaviour -/

/-- **C5 counterexample.** A failure of the snapshot download itself
(`raise_for_status()` or a transport error inside `download_upstream_db`)
is uncaught in `main`: the run aborts instead of degrading to an empty
store. -/
theorem snapshot_download_failure_aborts :
    mainPrelude (.okAsset "v1.0" ⟨"Dict-Sqlite.db", "u"⟩) (.error "HTTP 404") []
      = .error "HTTP 404" := rfl

/-- **C5 (amended).** Absence of the `Dict-Sqlite.db` asset, or a non-200
response when querying the latest release, is non-fatal: the run proceeds
on an empty (freshly initialized) store.  A failure of the download
itself, or of the release query request, propagates and aborts the run. -/
theorem snapshot_fetch_degradation (fetch : Except String Unit) (snapshot : Store)
    (tag e : String) (code : Nat) (a : DbAsset) :
    download_upstream_db none fetch = .ok false
    ∧ mainPrelude (.badStatus code) fetch snapshot = .ok []
    ∧ mainPrelude (.okNoAsset tag) fetch snapshot = .ok []
    ∧ mainPrelude (.okAsset tag a) (.error e) snapshot = .error e
    ∧ mainPrelude (.transportErr e) fetch snapshot = .error e
    ∧ mainPrelude (.okAsset tag a) (.ok ()) snapshot = .ok snapshot :=
  ⟨rfl, rfl, rfl, rfl, rfl, rfl⟩

/-! ## Changelog layout -/

/-- **C8 counterexample.** A failed scope's changelog row does not show
the error *in place of* the counts: the three (zero) count cells are
still rendered, and the error text occupies the trailing status cell. -/
theorem failed_row_still_shows_counts :
    rowOf ⟨"m", "v", 0, 0, 0, some "boom"⟩
        = "| `m` | `v` | 0 | 0 | 0 | ❌ 失败: `boom` |"
    ∧ rowOf ⟨"m", "v", 0, 0, 0, some "boom"⟩ ≠ "| `m` | `v` | ❌ 失败: `boom` |" :=
  ⟨rfl, by decide⟩

/-- **C8 (amended).** The changelog holds exactly one row per attempted
scope, in processing order (the table body is `summaries.map rowOf` and
`processScopes` yields one summary per scope); a successful row shows the
three counts with a success marker, a failed row shows its (zero) counts
with the error text in the status cell. -/
theorem changelog_one_row_per_scope (summaries : List Summary) (dc : Nat)
    (h : summaries ≠ []) :
    generate_release_body_lines summaries dc
      = ["## 合并词典更新",
         "本次合并共计处理了 **" ++ toString dc ++ "** 个用户贡献的翻译条目。",
         "",
         "### 数据来源与变更摘要",
         "",
         "| 模组 (modid) | 版本 | 新增条目 | 更新条目 | 跳过条目 | 状态 |",
         "|---|---|---:|---:|---:|:---|"]
        ++ summaries.map rowOf
        ++ ["", "`diff.json` 文件包含了本次合并所有新增和更新的条目详情。"]
    ∧ (∀ s : Summary,
        rowOf s = "| `" ++ s.modid ++ "` | `" ++ s.version ++ "` | "
          ++ toString s.inserted ++ " | " ++ toString s.updated ++ " | "
          ++ toString s.skipped ++ " | " ++ statusOf s ++ " |")
    ∧ (∀ s : Summary, s.error = none → statusOf s = "✅ 成功")
    ∧ (∀ (s : Summary) (e : String), s.error = some e →
        statusOf s = "❌ 失败: `" ++ e ++ "`")
    ∧ (∀ (store : Store) (scopes : List ScopeInput),
        ((processScopes store scopes).2.1).length = scopes.length) := by
  refine ⟨?_, fun s => rfl, ?_, ?_, ?_⟩
  · simp [generate_release_body_lines, if_neg h]
  · intro s hs
    simp [statusOf, hs]
  · intro s e hs
    simp [statusOf, hs]
  · intro store scopes
    induction scopes generalizing store with
    | nil => rfl
    | cons s ss ih => simp [processScopes, ih]

/-- Witness for C8 (amended): a one-success-scope changelog. -/
theorem changelog_one_row_per_scope_witness :
    generate_release_body_lines [⟨"m", "v", 1, 2, 3, none⟩] 3
      = ["## 合并词典更新",
         "本次合并共计处理了 **3** 个用户贡献的翻译条目。",
         "",
         "### 数据来源与变更摘要",
         "",
         "| 模组 (modid) | 版本 | 新增条目 | 更新条目 | 跳过条目 | 状态 |",
         "|---|---|---:|---:|---:|:---|",
         "| `m` | `v` | 1 | 2 | 3 | ✅ 成功 |",
         "",
         "`diff.json` 文件包含了本次合并所有新增和更新的条目详情。"] := by
  rw [(changelog_one_row_per_scope [⟨"m", "v", 1, 2, 3, none⟩] 3 (by decide)).1]
  decide

end MergeDict

namespace MergeDict

/-! ## The frequency-ranked translation lists (C2) -/

theorem mem_firstEncAux {v : String} :
    ∀ (l seen : List String), v ∈ firstEncAux seen l ↔ v ∈ l ∧ v ∉ seen := by
  intro l
  induction l with
  | nil => intro seen; simp [firstEncAux]
  | cons x xs ih =>
    intro seen
    by_cases hx : x ∈ seen
    · rw [firstEncAux, if_pos hx, ih]
      constructor
      · rintro ⟨h1, h2⟩
        exact ⟨List.mem_cons_of_mem _ h1, h2⟩
      · rintro ⟨h1, h2⟩
        rcases List.mem_cons.mp h1 with rfl | h1'
        · exact absurd hx h2
        · exact ⟨h1', h2⟩
    · rw [firstEncAux, if_neg hx]
      simp only [List.mem_cons, ih]
      constructor
      · rintro (rfl | ⟨h1, h2⟩)
        · exact ⟨Or.inl rfl, hx⟩
        · exact ⟨Or.inr h1, fun hs => h2 (Or.inr hs)⟩
      · rintro ⟨rfl | h1, h2⟩
        · exact Or.inl rfl
        · by_cases hvx : v = x
          · exact Or.inl hvx
          · exact Or.inr ⟨h1, fun hmem => hmem.elim hvx h2⟩

theorem mem_firstEnc {v : String} {l : List String} : v ∈ firstEnc l ↔ v ∈ l := by
  rw [firstEnc, mem_firstEncAux]
  simp

theorem nodup_firstEncAux : ∀ (l seen : List String), (firstEncAux seen l).Nodup := by
  intro l
  induction l with
  | nil => intro seen; simp [firstEncAux]
  | cons x xs ih =>
    intro seen
    by_cases hx : x ∈ seen
    · rw [firstEncAux, if_pos hx]
      exact ih seen
    · rw [firstEncAux, if_neg hx]
      refine List.Pairwise.cons ?_ (ih _)
      intro v hv heq
      exact ((mem_firstEncAux _ _).mp hv).2 (by rw [← heq]; exact List.mem_cons_self _ _)

theorem nodup_firstEnc (l : List String) : (firstEnc l).Nodup :=
  nodup_firstEncAux l []

theorem firstEncAux_pairwise_indexOf :
    ∀ (l seen : List String),
      (firstEncAux seen l).Pairwise fun u v => List.indexOf u l < List.indexOf v l := by
  intro l
  induction l with
  | nil => intro seen; simp [firstEncAux]
  | cons x xs ih =>
    intro seen
    have transfer : ∀ seen', (∀ v ∈ firstEncAux seen' xs, v ≠ x) →
        (firstEncAux seen' xs).Pairwise
          fun u v => List.indexOf u (x :: xs) < List.indexOf v (x :: xs) := by
      intro seen' hne
      refine List.Pairwise.imp_of_mem ?_ (ih seen')
      intro u v hu hv hlt
      rw [List.indexOf_cons_ne _ fun h => (hne u hu) h.symm,
          List.indexOf_cons_ne _ fun h => (hne v hv) h.symm]
      omega
    by_cases hx : x ∈ seen
    · rw [firstEncAux, if_pos hx]
      refine transfer seen ?_
      intro v hv hvx
      exact ((mem_firstEncAux _ _).mp hv).2 (hvx ▸ hx)
    · rw [firstEncAux, if_neg hx]
      refine List.Pairwise.cons ?_ (transfer (x :: seen) ?_)
      · intro v hv
        have hvne : v ≠ x := fun h =>
          ((mem_firstEncAux _ _).mp hv).2 (h ▸ List.mem_cons_self _ _)
        rw [List.indexOf_cons_self, List.indexOf_cons_ne _ fun h => hvne h.symm]
        omega
      · intro v hv hvx
        exact ((mem_firstEncAux _ _).mp hv).2 (hvx ▸ List.mem_cons_self _ _)

theorem firstEnc_pairwise_indexOf (l : List String) :
    (firstEnc l).Pairwise fun u v => List.indexOf u l < List.indexOf v l :=
  firstEncAux_pairwise_indexOf l []

theorem counterList_map_fst (l : List String) :
    (counterList l).map Prod.fst = firstEnc l := by
  have hc : (Prod.fst ∘ fun v : String => (v, l.count v)) = id := rfl
  rw [counterList, List.map_map, hc, List.map_id]

theorem mem_counterList {l : List String} {p : String × Nat} :
    p ∈ counterList l ↔ p.1 ∈ firstEnc l ∧ p.2 = l.count p.1 := by
  constructor
  · intro hp
    obtain ⟨v, hv, he⟩ := List.mem_map.mp hp
    exact ⟨by rw [← he]; exact hv, by rw [← he]⟩
  · intro ⟨h1, h2⟩
    refine List.mem_map.mpr ⟨p.1, h1, ?_⟩
    rw [← h2]

theorem insertDesc_perm (x : String × Nat) (m : List (String × Nat)) :
    (insertDesc x m).Perm (x :: m) := by
  induction m with
  | nil => exact List.Perm.refl _
  | cons y ys ih =>
    by_cases hy : y.2 ≤ x.2
    · rw [insertDesc, if_pos hy]
    · rw [insertDesc, if_neg hy]
      exact (ih.cons y).trans (List.Perm.swap x y ys)

theorem sortDesc_perm : ∀ m : List (String × Nat), (sortDesc m).Perm m := by
  intro m
  induction m with
  | nil => exact List.Perm.refl _
  | cons x xs ih =>
    rw [sortDesc]
    exact (insertDesc_perm x (sortDesc xs)).trans (ih.cons x)

theorem insertDesc_pairwise {S : (String × Nat) → (String × Nat) → Prop}
    (x : String × Nat) :
    ∀ (m : List (String × Nat)),
      m.Pairwise (fun a b => b.2 < a.2 ∨ (a.2 = b.2 ∧ S a b)) →
      (∀ y ∈ m, S x y) →
      (insertDesc x m).Pairwise (fun a b => b.2 < a.2 ∨ (a.2 = b.2 ∧ S a b)) := by
  intro m
  induction m with
  | nil => intro _ _; simp [insertDesc]
  | cons y ys ih =>
    intro hm hx
    rw [List.pairwise_cons] at hm
    by_cases hy : y.2 ≤ x.2
    · rw [insertDesc, if_pos hy]
      refine List.Pairwise.cons ?_ (List.Pairwise.cons hm.1 hm.2)
      intro z hz
      rcases List.mem_cons.mp hz with rfl | hz'
      · rcases lt_or_eq_of_le hy with hlt | heq
        · exact Or.inl hlt
        · exact Or.inr ⟨heq.symm, hx _ (List.mem_cons_self _ _)⟩
      · rcases hm.1 z hz' with hlt | ⟨heq, _⟩
        · exact Or.inl (lt_of_lt_of_le hlt hy)
        · rcases lt_or_eq_of_le hy with h1 | h1
          · exact Or.inl (heq ▸ h1)
          · exact Or.inr ⟨h1.symm.trans heq, hx z (List.mem_cons_of_mem _ hz')⟩
    · rw [insertDesc, if_neg hy]
      refine List.Pairwise.cons ?_ (ih hm.2 fun z hz => hx z (List.mem_cons_of_mem _ hz))
      intro z hz
      rcases List.mem_cons.mp ((insertDesc_perm x ys).mem_iff.mp hz) with rfl | hzy
      · exact Or.inl (lt_of_not_le hy)
      · exact hm.1 z hzy

theorem sortDesc_pairwise {S : (String × Nat) → (String × Nat) → Prop} :
    ∀ {m : List (String × Nat)}, m.Pairwise S →
      (sortDesc m).Pairwise (fun a b => b.2 < a.2 ∨ (a.2 = b.2 ∧ S a b)) := by
  intro m
  induction m with
  | nil => intro _; simp [sortDesc]
  | cons x xs ih =>
    intro h
    rw [List.pairwise_cons] at h
    rw [sortDesc]
    refine insertDesc_pairwise x _ (ih h.2) ?_
    intro y hy
    exact h.1 y ((sortDesc_perm xs).mem_iff.mp hy)

/-- The full specification of the ranked list produced for one group:
distinct values only, all and only the encountered values, ordered by
descending occurrence count with first-encounter order breaking ties. -/
theorem rankList_spec (l : List String) :
    (rankList l).Nodup
    ∧ (∀ v, v ∈ rankList l ↔ v ∈ l)
    ∧ (rankList l).Pairwise (fun u v =>
        l.count v < l.count u
        ∨ (l.count u = l.count v ∧ List.indexOf u l < List.indexOf v l)) := by
  have hperm : (mostCommon l).Perm (counterList l) := sortDesc_perm _
  have hmapperm : (rankList l).Perm (firstEnc l) := by
    rw [rankList, ← counterList_map_fst]
    exact hperm.map Prod.fst
  refine ⟨?_, ?_, ?_⟩
  · exact hmapperm.nodup_iff.mpr (nodup_firstEnc l)
  · intro v
    rw [hmapperm.mem_iff, mem_firstEnc]
  · have hcl : (counterList l).Pairwise
        (fun a b : String × Nat => List.indexOf a.1 l < List.indexOf b.1 l) := by
      rw [← counterList_map_fst] at *
      exact List.pairwise_map.mpr
        ((firstEnc_pairwise_indexOf l).imp fun h => h)
    have hmc := sortDesc_pairwise hcl
    rw [rankList]
    refine List.pairwise_map.mpr ?_
    refine List.Pairwise.imp_of_mem ?_ hmc
    intro a b ha hb hT
    have ha' := mem_counterList.mp (hperm.mem_iff.mp ha)
    have hb' := mem_counterList.mp (hperm.mem_iff.mp hb)
    rcases hT with hlt | ⟨heq, hS⟩
    · exact Or.inl (ha'.2 ▸ hb'.2 ▸ hlt)
    · exact Or.inr ⟨ha'.2 ▸ hb'.2 ▸ heq, hS⟩

end MergeDict

namespace MergeDict

/-- **C2.** In the mini artifact every origin maps to the ranked list of
its group's translations: each distinct `trans_name` exactly once, all
and only the group's values, ordered by descending occurrence count and,
for equal counts, by first encounter in the store's natural enumeration
order; in particular encounter order `A, C, B, A, B` yields
`["A", "B", "C"]`. -/
theorem mini_artifact_ranking (rows : Store) :
    (∀ p ∈ integral_mini_final rows,
        p.2 = rankList (groupVals rows p.1)
        ∧ p.2.Nodup
        ∧ (∀ v, v ∈ p.2 ↔ v ∈ groupVals rows p.1)
        ∧ p.2.Pairwise (fun u v =>
            (groupVals rows p.1).count v < (groupVals rows p.1).count u
            ∨ ((groupVals rows p.1).count u = (groupVals rows p.1).count v
               ∧ List.indexOf u (groupVals rows p.1)
                   < List.indexOf v (groupVals rows p.1))))
    ∧ integral_mini_final
        [⟨1, "O", "A", "m", "k1", "v", "c"⟩, ⟨2, "O", "C", "m", "k2", "v", "c"⟩,
         ⟨3, "O", "B", "m", "k3", "v", "c"⟩, ⟨4, "O", "A", "m", "k4", "v", "c"⟩,
         ⟨5, "O", "B", "m", "k5", "v", "c"⟩]
      = [("O", ["A", "B", "C"])] := by
  constructor
  · intro p hp
    obtain ⟨o, ho, he⟩ := List.mem_map.mp hp
    have h2 : p.2 = rankList (groupVals rows p.1) := by rw [← he]
    refine ⟨h2, ?_, ?_, ?_⟩ <;> rw [h2]
    · exact (rankList_spec _).1
    · exact (rankList_spec _).2.1
    · exact (rankList_spec _).2.2
  · decide

/-- Witness for C2: the ranked list of the five-row example group. -/
theorem mini_artifact_ranking_witness :
    (["A", "B", "C"] : List String)
      = rankList (groupVals
          [⟨1, "O", "A", "m", "k1", "v", "c"⟩, ⟨2, "O", "C", "m", "k2", "v", "c"⟩,
           ⟨3, "O", "B", "m", "k3", "v", "c"⟩, ⟨4, "O", "A", "m", "k4", "v", "c"⟩,
           ⟨5, "O", "B", "m", "k5", "v", "c"⟩] "O") :=
  ((mini_artifact_ranking
      [⟨1, "O", "A", "m", "k1", "v", "c"⟩, ⟨2, "O", "C", "m", "k2", "v", "c"⟩,
       ⟨3, "O", "B", "m", "k3", "v", "c"⟩, ⟨4, "O", "A", "m", "k4", "v", "c"⟩,
       ⟨5, "O", "B", "m", "k5", "v", "c"⟩]).1
    ("O", ["A", "B", "C"]) (by decide)).1

end MergeDict

namespace MergeDict

/-! ## Re-running a scope against the already-merged store (C3) -/

theorem lookup_mem : ∀ {l : List (String × Nat)} {k : String} {v : Nat},
    l.lookup k = some v → (k, v) ∈ l := by
  intro l
  induction l with
  | nil => intro k v h; cases h
  | cons p ps ih =>
    intro k v h
    obtain ⟨a, b⟩ := p
    rw [List.lookup_cons] at h
    by_cases hak : k == a
    · rw [hak] at h
      obtain rfl : b = v := Option.some.inj h
      exact (beq_iff_eq.mp hak) ▸ List.mem_cons_self _ _
    · rw [Bool.eq_false_iff.mpr hak] at h
      exact List.mem_cons_of_mem _ (ih h)

theorem lookup_isSome_of_mem : ∀ {l : List (String × Nat)} {k : String} {w : Nat},
    (k, w) ∈ l → ∃ v, l.lookup k = some v := by
  intro l
  induction l with
  | nil => intro k w h; cases h
  | cons p ps ih =>
    intro k w h
    obtain ⟨a, b⟩ := p
    rw [List.lookup_cons]
    by_cases hak : k == a
    · exact ⟨b, by rw [hak]⟩
    · rw [Bool.eq_false_iff.mpr hak]
      rcases List.mem_cons.mp h with he | h'
      · exact absurd (beq_iff_eq.mpr (congrArg Prod.fst he)) hak
      · exact ih h'

theorem existingId_isSome {store : Store} {sc : Scope} {k : String}
    (h : ∃ r ∈ store, matchesScope sc r ∧ r.key = k) :
    ∃ id, existingId store sc k = some id
      ∧ ∃ r ∈ store, matchesScope sc r ∧ r.id = id := by
  obtain ⟨r, hr, hm, hk⟩ := h
  have hpair : (k, r.id) ∈ (existing_pairs store sc).reverse := by
    rw [List.mem_reverse, existing_pairs]
    exact List.mem_map.mpr ⟨r, List.mem_filter.mpr ⟨hr, hm⟩, by rw [hk]⟩
  obtain ⟨v, hv⟩ := lookup_isSome_of_mem hpair
  have hmem := lookup_mem hv
  rw [List.mem_reverse, existing_pairs] at hmem
  obtain ⟨r', hr', he⟩ := List.mem_map.mp hmem
  exact ⟨v, hv, r', (List.mem_filter.mp hr').1, (List.mem_filter.mp hr').2,
    congrArg Prod.snd he⟩

theorem existingId_mem {store : Store} {sc : Scope} {k : String} {id : Nat}
    (h : existingId store sc k = some id) :
    ∃ r ∈ store, matchesScope sc r ∧ r.key = k ∧ r.id = id := by
  have hmem := lookup_mem h
  rw [List.mem_reverse, existing_pairs] at hmem
  obtain ⟨r, hr, he⟩ := List.mem_map.mp hmem
  exact ⟨r, (List.mem_filter.mp hr).1, (List.mem_filter.mp hr).2,
    congrArg Prod.fst he, congrArg Prod.snd he⟩

theorem applyUpdates_ident :
    ∀ (ups : List ((String × String) × Nat)) (store : Store),
      ∀ r ∈ store, ∃ r' ∈ applyUpdates store ups,
        r'.id = r.id ∧ r'.key = r.key ∧ r'.modid = r.modid
          ∧ r'.version = r.version ∧ r'.curseforge = r.curseforge := by
  intro ups
  induction ups with
  | nil => exact fun store r hr => ⟨r, hr, rfl, rfl, rfl, rfl, rfl⟩
  | cons p ps ih =>
    intro store r hr
    have hstep :
        (if r.id = p.2 then { r with origin_name := p.1.1, trans_name := p.1.2 } else r)
          ∈ store.map fun r =>
              if r.id = p.2 then { r with origin_name := p.1.1, trans_name := p.1.2 }
              else r :=
      List.mem_map_of_mem _ hr
    obtain ⟨r', hr', h1, h2, h3, h4, h5⟩ := ih _ _ hstep
    have hfields :
        (if r.id = p.2 then { r with origin_name := p.1.1, trans_name := p.1.2 }
          else r).id = r.id
        ∧ (if r.id = p.2 then { r with origin_name := p.1.1, trans_name := p.1.2 }
          else r).key = r.key
        ∧ (if r.id = p.2 then { r with origin_name := p.1.1, trans_name := p.1.2 }
          else r).modid = r.modid
        ∧ (if r.id = p.2 then { r with origin_name := p.1.1, trans_name := p.1.2 }
          else r).version = r.version
        ∧ (if r.id = p.2 then { r with origin_name := p.1.1, trans_name := p.1.2 }
          else r).curseforge = r.curseforge := by
      by_cases hc : r.id = p.2 <;> simp [hc]
    refine ⟨r', ?_, ?_, ?_, ?_, ?_, ?_⟩
    · simpa [applyUpdates, List.foldl_cons] using hr'
    · rw [h1, hfields.1]
    · rw [h2, hfields.2.1]
    · rw [h3, hfields.2.2.1]
    · rw [h4, hfields.2.2.2.1]
    · rw [h5, hfields.2.2.2.2]

theorem applyUpdates_ids :
    ∀ (ups : List ((String × String) × Nat)) (store : Store),
      (∀ r ∈ store, 1 ≤ r.id) → ∀ r ∈ applyUpdates store ups, 1 ≤ r.id := by
  intro ups
  induction ups with
  | nil => exact fun store h => h
  | cons p ps ih =>
    intro store h r hr
    refine ih _ ?_ r (by simpa [applyUpdates, List.foldl_cons] using hr)
    intro r' hr'
    obtain ⟨r0, hr0, he⟩ := List.mem_map.mp hr'
    have : r'.id = r0.id := by
      rw [← he]
      by_cases hc : r0.id = p.2 <;> simp [hc]
    rw [this]
    exact h r0 hr0

theorem insertRows_mem :
    ∀ (ins : List DiffEntry) (n : Nat) (e : DiffEntry), e ∈ ins →
      ∃ r ∈ insertRows n ins,
        r.origin_name = e.origin_name ∧ r.trans_name = e.trans_name
          ∧ r.modid = e.modid ∧ r.key = e.key ∧ r.version = e.version
          ∧ r.curseforge = e.curseforge ∧ n ≤ r.id := by
  intro ins
  induction ins with
  | nil => intro n e he; cases he
  | cons f fs ih =>
    intro n e he
    rcases List.mem_cons.mp he with rfl | he'
    · exact ⟨⟨n, e.origin_name, e.trans_name, e.modid, e.key, e.version, e.curseforge⟩,
        List.mem_cons_self _ _, rfl, rfl, rfl, rfl, rfl, rfl, Nat.le_refl n⟩
    · obtain ⟨r, hr, h1, h2, h3, h4, h5, h6, h7⟩ := ih (n + 1) e he'
      exact ⟨r, List.mem_cons_of_mem _ hr, h1, h2, h3, h4, h5, h6, by omega⟩

theorem insertRows_ids :
    ∀ (ins : List DiffEntry) (n : Nat), ∀ r ∈ insertRows n ins, n ≤ r.id := by
  intro ins
  induction ins with
  | nil => intro n r hr; cases hr
  | cons f fs ih =>
    intro n r hr
    rcases List.mem_cons.mp hr with rfl | hr'
    · exact Nat.le_refl n
    · have := ih (n + 1) r hr'
      omega

theorem applyMerge_ids {store : Store} (sc : Scope)
    (en zh : List (String × JVal)) (ks : List String)
    (hid : ∀ r ∈ store, 1 ≤ r.id) :
    ∀ r ∈ applyMerge store sc en zh ks, 1 ≤ r.id := by
  intro r hr
  simp only [applyMerge, applyInserts] at hr
  rcases List.mem_append.mp hr with h | h
  · exact applyUpdates_ids _ store hid r h
  · have := insertRows_ids _ _ r h
    omega

theorem applyMerge_key_present (store : Store) (sc : Scope)
    {en zh : List (String × JVal)} {ks : List String} {k : String}
    (hk : k ∈ ks) (hs : strPair en zh k = true) :
    ∃ r ∈ applyMerge store sc en zh ks, matchesScope sc r ∧ r.key = k := by
  obtain ⟨p, hp⟩ := Option.isSome_iff_exists.mp (by simpa [strPair] using hs)
  by_cases hfound : ∃ id, existingId store sc k = some id ∧ id ≠ 0
  · obtain ⟨id, hm, hnz⟩ := hfound
    obtain ⟨r, hr, hmr, hkey, _⟩ := existingId_mem hm
    obtain ⟨r', hr', h1, h2, h3, h4, h5⟩ :=
      applyUpdates_ident (merge_mod_entries store sc en zh ks).to_update store r hr
    refine ⟨r', ?_, ?_, by rw [h2, hkey]⟩
    · simp only [applyMerge, applyInserts]
      exact List.mem_append.mpr (Or.inl hr')
    · simp only [matchesScope, h3, h4, h5] at hmr ⊢
      exact hmr
  · have hins : insFn en zh sc (existingId store sc) k
        = some ⟨p.1, p.2, sc.modid, k, sc.version, sc.curseforge⟩ := by
      rw [insFn, hp]
      cases hm : existingId store sc k with
      | none => rfl
      | some id =>
        have hz : id = 0 := by
          by_contra hnz
          exact hfound ⟨id, hm, hnz⟩
        simp [hz]
    have hmem : (⟨p.1, p.2, sc.modid, k, sc.version, sc.curseforge⟩ : DiffEntry)
        ∈ (merge_mod_entries store sc en zh ks).to_insert := by
      rw [merge_mod_entries, mergeLoop_to_insert]
      exact List.mem_filterMap.mpr ⟨k, hk, hins⟩
    obtain ⟨r, hr, h1, h2, h3, h4, h5, h6, h7⟩ :=
      insertRows_mem _ (maxId (applyUpdates store
        (merge_mod_entries store sc en zh ks).to_update) + 1) _ hmem
    refine ⟨r, ?_, ?_, h4⟩
    · simp only [applyMerge, applyInserts]
      exact List.mem_append.mpr (Or.inr hr)
    · simp [matchesScope, h3, h5, h6]

end MergeDict

namespace MergeDict

theorem mergeLoop_all_found (en zh : List (String × JVal)) (sc : Scope)
    (emap : String → Option Nat) :
    ∀ ks : List String,
      (∀ k ∈ ks, strPair en zh k = true → ∃ id, emap k = some id ∧ id ≠ 0) →
      (mergeLoop en zh sc emap ks).to_insert = []
      ∧ (mergeLoop en zh sc emap ks).to_update.length
          = (ks.filter (strPair en zh)).length := by
  intro ks
  induction ks with
  | nil => intro _; exact ⟨rfl, rfl⟩
  | cons k ks ih =>
    intro hfound
    have ihr := ih fun k' hk' hs' => hfound k' (List.mem_cons_of_mem _ hk') hs'
    cases hp : pairVals en zh k with
    | none =>
      have hsp : strPair en zh k = false := by simp [strPair, hp]
      rw [List.filter_cons_of_neg (by simp [hsp])]
      simp only [mergeLoop, hp]
      exact ihr
    | some p =>
      obtain ⟨o, t⟩ := p
      have hsp : strPair en zh k = true := by simp [strPair, hp]
      obtain ⟨id, hm, hnz⟩ := hfound k (List.mem_cons_self _ _) hsp
      rw [List.filter_cons_of_pos (by simp [hsp])]
      simp only [mergeLoop, hp, hm, if_pos hnz, List.length_cons]
      exact ⟨ihr.1, by rw [ihr.2]⟩

/-- **C3 (amended).** Re-running an unchanged scope against the store it
was already merged into yields `insertedCount = 0`, and every shared key
whose two values are strings is counted as updated regardless of whether
its stored values differ — so `updatedCount` equals the number of
string-valued shared keys, i.e. `|intersection| − skippedCount` (not the
full `|intersection|` whenever some shared pair is skipped as
non-string). -/
theorem rerun_value_blind_updates (store : Store) (sc : Scope)
    (en zh : List (String × JVal)) (ks ks2 : List String)
    (hks : validKs en zh ks) (hks2 : validKs en zh ks2)
    (hid : ∀ r ∈ store, 1 ≤ r.id) :
    (merge_mod_entries (applyMerge store sc en zh ks) sc en zh ks2).to_insert = []
    ∧ (merge_mod_entries (applyMerge store sc en zh ks) sc en zh ks2).to_update.length
        = (ks2.filter (strPair en zh)).length
    ∧ (merge_mod_entries (applyMerge store sc en zh ks) sc en zh ks2).to_update.length
        + (merge_mod_entries (applyMerge store sc en zh ks) sc en zh ks2).skipped
        = ((keysOf en).toFinset ∩ (keysOf zh).toFinset).card := by
  have hfound : ∀ k ∈ ks2, strPair en zh k = true →
      ∃ id, existingId (applyMerge store sc en zh ks) sc k = some id ∧ id ≠ 0 := by
    intro k hk hs
    have hk1 : k ∈ ks := hks.2.2 k (hks2.2.1 k hk).1 (hks2.2.1 k hk).2
    obtain ⟨r, hr, hm, hkey⟩ := applyMerge_key_present store sc hk1 hs
    obtain ⟨id, hlook, r', hr', _, hid'⟩ := existingId_isSome ⟨r, hr, hm, hkey⟩
    have h1 : 1 ≤ r'.id := applyMerge_ids sc en zh ks hid r' hr'
    exact ⟨id, hlook, by omega⟩
  have hml := mergeLoop_all_found en zh sc
    (existingId (applyMerge store sc en zh ks) sc) ks2 hfound
  refine ⟨hml.1, hml.2, ?_⟩
  have hsum := mergeLoop_counts_sum en zh sc
    (existingId (applyMerge store sc en zh ks) sc) ks2
  have hlen := validKs_length hks2
  have h0 : (mergeLoop en zh sc
      (existingId (applyMerge store sc en zh ks) sc) ks2).to_insert.length = 0 := by
    rw [hml.1]
    rfl
  rw [merge_mod_entries]
  omega

/-- **C3 counterexample.** For a scope whose only shared key holds a
non-string value in both files, the first run inserts nothing (the pair
is skipped), and the re-run yields `updatedCount = 0` while
`|intersection| = 1`: `updatedCount ≠ |intersection|`. -/
theorem rerun_nonstring_counterexample :
    validKs [("a", JVal.nonstr)] [("a", JVal.nonstr)] ["a"]
    ∧ (merge_mod_entries
        (applyMerge [] ⟨"m", "v", "c"⟩ [("a", JVal.nonstr)] [("a", JVal.nonstr)] ["a"])
        ⟨"m", "v", "c"⟩ [("a", JVal.nonstr)] [("a", JVal.nonstr)] ["a"]).to_insert.length
        = 0
    ∧ (merge_mod_entries
        (applyMerge [] ⟨"m", "v", "c"⟩ [("a", JVal.nonstr)] [("a", JVal.nonstr)] ["a"])
        ⟨"m", "v", "c"⟩ [("a", JVal.nonstr)] [("a", JVal.nonstr)] ["a"]).to_update.length
        = 0
    ∧ ((keysOf [("a", JVal.nonstr)]).toFinset
        ∩ (keysOf [("a", JVal.nonstr)]).toFinset).card = 1 := by
  refine ⟨by decide, by decide, by decide, ?_⟩
  decide

/-- Witness for C3 (amended) at an all-string one-key scope: the re-run
schedules no inserts. -/
theorem rerun_value_blind_updates_witness :
    (merge_mod_entries
        (applyMerge [] ⟨"m", "v", "c"⟩ [("a", JVal.str "x")] [("a", JVal.str "y")] ["a"])
        ⟨"m", "v", "c"⟩ [("a", JVal.str "x")] [("a", JVal.str "y")] ["a"]).to_insert
      = [] :=
  (rerun_value_blind_updates [] ⟨"m", "v", "c"⟩ [("a", JVal.str "x")]
    [("a", JVal.str "y")] ["a"] ["a"] (by decide) (by decide) (by decide)).1

end MergeDict

namespace MergeDict

/-! ## Iteration-order dependence of the merge (C4) -/

theorem perm_of_validKs {en zh : List (String × JVal)} {ks1 ks2 : List String}
    (h1 : validKs en zh ks1) (h2 : validKs en zh ks2) : ks1.Perm ks2 :=
  (List.perm_ext_iff_of_nodup h1.1 h2.1).mpr fun a =>
    ⟨fun ha => h2.2.2 a (h1.2.1 a ha).1 (h1.2.1 a ha).2,
     fun ha => h1.2.2 a (h2.2.1 a ha).1 (h2.2.1 a ha).2⟩

/-- **C4 counterexample.** Two valid enumerations of the same key-set
intersection (both duplicate-free with exactly the shared keys, as a
Python set may present them in either order) produce different diff-entry
lists and different staged stores: the run's outputs are not independent
of the container's iteration order. -/
theorem merge_depends_on_iteration_order :
    validKs [("a", JVal.str "x"), ("b", JVal.str "y")]
        [("a", JVal.str "u"), ("b", JVal.str "v")] ["a", "b"]
    ∧ validKs [("a", JVal.str "x"), ("b", JVal.str "y")]
        [("a", JVal.str "u"), ("b", JVal.str "v")] ["b", "a"]
    ∧ (merge_mod_entries [] ⟨"m", "v", "c"⟩
          [("a", JVal.str "x"), ("b", JVal.str "y")]
          [("a", JVal.str "u"), ("b", JVal.str "v")] ["a", "b"]).diff
        ≠ (merge_mod_entries [] ⟨"m", "v", "c"⟩
          [("a", JVal.str "x"), ("b", JVal.str "y")]
          [("a", JVal.str "u"), ("b", JVal.str "v")] ["b", "a"]).diff
    ∧ applyMerge [] ⟨"m", "v", "c"⟩
          [("a", JVal.str "x"), ("b", JVal.str "y")]
          [("a", JVal.str "u"), ("b", JVal.str "v")] ["a", "b"]
        ≠ applyMerge [] ⟨"m", "v", "c"⟩
          [("a", JVal.str "x"), ("b", JVal.str "y")]
          [("a", JVal.str "u"), ("b", JVal.str "v")] ["b", "a"] := by
  refine ⟨by decide, by decide, by decide, by decide⟩

/-- **C4 (amended).** For a fixed store and fixed parsed mappings, the
three counts are independent of the intersection's iteration order, and
the diff-entry and insert lists are determined up to permutation; only
their order (and hence row order and artifact bytes) varies with the
enumeration. -/
theorem merge_deterministic_up_to_order (store : Store) (sc : Scope)
    (en zh : List (String × JVal)) (ks1 ks2 : List String)
    (h1 : validKs en zh ks1) (h2 : validKs en zh ks2) :
    (merge_mod_entries store sc en zh ks1).to_insert.length
      = (merge_mod_entries store sc en zh ks2).to_insert.length
    ∧ (merge_mod_entries store sc en zh ks1).to_update.length
      = (merge_mod_entries store sc en zh ks2).to_update.length
    ∧ (merge_mod_entries store sc en zh ks1).skipped
      = (merge_mod_entries store sc en zh ks2).skipped
    ∧ ((merge_mod_entries store sc en zh ks1).diff).Perm
        ((merge_mod_entries store sc en zh ks2).diff)
    ∧ ((merge_mod_entries store sc en zh ks1).to_insert).Perm
        ((merge_mod_entries store sc en zh ks2).to_insert) := by
  have hperm := perm_of_validKs h1 h2
  rw [merge_mod_entries, merge_mod_entries]
  refine ⟨?_, ?_, ?_, ?_, ?_⟩
  · rw [mergeLoop_to_insert, mergeLoop_to_insert]
    exact (hperm.filterMap _).length_eq
  · rw [mergeLoop_to_update, mergeLoop_to_update]
    exact (hperm.filterMap _).length_eq
  · rw [mergeLoop_skipped, mergeLoop_skipped]
    exact hperm.countP_eq _
  · rw [mergeLoop_diff, mergeLoop_diff]
    exact hperm.filterMap _
  · rw [mergeLoop_to_insert, mergeLoop_to_insert]
    exact hperm.filterMap _

/-- Witness for C4 (amended) on the two enumerations of the
counterexample scope: equal insert counts. -/
theorem merge_deterministic_up_to_order_witness :
    (merge_mod_entries [] ⟨"m", "v", "c"⟩
        [("a", JVal.str "x"), ("b", JVal.str "y")]
        [("a", JVal.str "u"), ("b", JVal.str "v")] ["a", "b"]).to_insert.length
      = (merge_mod_entries [] ⟨"m", "v", "c"⟩
        [("a", JVal.str "x"), ("b", JVal.str "y")]
        [("a", JVal.str "u"), ("b", JVal.str "v")] ["b", "a"]).to_insert.length :=
  (merge_deterministic_up_to_order [] ⟨"m", "v", "c"⟩
    [("a", JVal.str "x"), ("b", JVal.str "y")]
    [("a", JVal.str "u"), ("b", JVal.str "v")] ["a", "b"] ["b", "a"]
    (by decide) (by decide)).1

/-! ## The shared artifact filter (C7) -/

theorem keepEntry_spec {r : DictRow} (h : keepEntry r = true) :
    r.origin_name.length ≤ 50 ∧ r.origin_name ≠ "" := by
  rw [keepEntry] at h
  simp only [Bool.not_eq_true', Bool.or_eq_false_iff, decide_eq_false_iff_not,
    not_lt, beq_eq_false_iff_ne, ne_eq] at h
  exact h

theorem mem_miniPairs {rows : Store} {q : String × String} :
    q ∈ miniPairs rows ↔ ∃ r ∈ rows.filter keepEntry,
      r.origin_name = q.1 ∧ r.trans_name = q.2
        ∧ r.origin_name ≠ r.trans_name := by
  rw [miniPairs]
  constructor
  · intro h
    obtain ⟨r, hr, he⟩ := List.mem_filterMap.mp h
    by_cases hne : r.origin_name ≠ r.trans_name
    · rw [if_pos hne] at he
      obtain rfl : _ = q := Option.some.inj he
      exact ⟨r, hr, rfl, rfl, hne⟩
    · rw [if_neg hne] at he
      cases he
  · rintro ⟨r, hr, h1, h2, h3⟩
    refine List.mem_filterMap.mpr ⟨r, hr, ?_⟩
    rw [if_pos h3, h1, h2]

theorem mem_groupVals {rows : Store} {o t : String} :
    t ∈ groupVals rows o ↔ (o, t) ∈ miniPairs rows := by
  rw [groupVals]
  constructor
  · intro h
    obtain ⟨q, hq, he⟩ := List.mem_filterMap.mp h
    by_cases h1 : q.1 = o
    · rw [if_pos h1] at he
      obtain rfl : q.2 = t := Option.some.inj he
      have hqe : (o, q.2) = q := by rw [← h1]
      exact hqe ▸ hq
    · rw [if_neg h1] at he
      cases he
  · intro h
    exact List.mem_filterMap.mpr ⟨(o, t), h, by rw [if_pos rfl]⟩

theorem mem_miniKeys {rows : Store} {o : String} :
    o ∈ miniKeys rows ↔ ∃ q ∈ miniPairs rows, q.1 = o := by
  rw [miniKeys, mem_firstEnc]
  simp [List.mem_map]

/-- **C7.** No entry whose origin text is longer than 50 characters or
empty appears in either artifact: every `Dict.json` entry satisfies the
filter, every `Dict-Mini.json` key is the origin of a filtered entry, and
every ranked translation comes from a filtered entry of that origin — the
single `keepEntry` predicate guards both artifacts. -/
theorem artifact_filter_excludes (rows : Store) :
    (∀ e ∈ integral rows, e.origin_name.length ≤ 50 ∧ e.origin_name ≠ "")
    ∧ (∀ p ∈ integral_mini_final rows,
        p.1.length ≤ 50 ∧ p.1 ≠ ""
        ∧ ∀ t ∈ p.2, ∃ e ∈ integral rows,
            e.origin_name = p.1 ∧ e.trans_name = t) := by
  constructor
  · intro e he
    exact keepEntry_spec (List.mem_filter.mp he).2
  · intro p hp
    obtain ⟨o, ho, he⟩ := List.mem_map.mp hp
    obtain ⟨q, hq, hq1⟩ := mem_miniKeys.mp ho
    obtain ⟨r, hr, hr1, _, _⟩ := mem_miniPairs.mp hq
    have h1 : p.1 = o := by rw [← he]
    have hlen := keepEntry_spec (List.mem_filter.mp hr).2
    refine ⟨?_, ?_, ?_⟩
    · rw [h1, ← hq1, ← hr1]
      exact hlen.1
    · rw [h1, ← hq1, ← hr1]
      exact hlen.2
    · intro t ht
      have h2 : p.2 = rankList (groupVals rows p.1) := by rw [← he]
      rw [h2] at ht
      have hg := ((rankList_spec (groupVals rows p.1)).2.1 t).mp ht
      obtain ⟨r', hr', hr'1, hr'2, _⟩ := mem_miniPairs.mp (mem_groupVals.mp hg)
      exact ⟨r', hr', hr'1, hr'2⟩

/-- Witness for C7 at the five-row example store: the first entry of the
full artifact satisfies the filter. -/
theorem artifact_filter_excludes_witness :
    ((⟨1, "O", "A", "m", "k1", "v", "c"⟩ : DictRow).origin_name.length ≤ 50)
    ∧ (⟨1, "O", "A", "m", "k1", "v", "c"⟩ : DictRow).origin_name ≠ "" :=
  (artifact_filter_excludes
      [⟨1, "O", "A", "m", "k1", "v", "c"⟩]).1
    ⟨1, "O", "A", "m", "k1", "v", "c"⟩ (by decide)

end MergeDict
